import Mathlib

/-!
Verification of the relay engine of the porte-voix-connect repository.

The definitions below are a shallow embedding of the Bluetooth mesh
service (BluetoothMeshService, the offline variant) and of the
message-sending hook (useMessages).  JavaScript strings are embedded as
lists of UTF-16 code units (naturals), timestamps as milliseconds since
the epoch (naturals), and the localStorage-backed stores as fields of an
explicit state record.  The JS Map keeps insertion order, so the peer
table is a list keyed by userId.  Math.random driven draws are taken
from an explicit stream of naturals carried in the state: a draw of
Math.floor(Math.random that is times n) is embedded as the head of the
stream reduced mod n.
-/

set_option maxHeartbeats 1600000
set_option maxRecDepth 16384

/-- A known contact, interface SavedContact of the offline message
service (BluetoothMeshService.ts line 370); the optional avatarUrl is
never read by the mesh or scan logic and is left out. -/
structure Contact where
  userId : String
  displayName : String
  username : String
  bluetoothId : Option String
  lastSeen : Nat
deriving DecidableEq, Repr

/-- A peer observation, interface BluetoothDevice of the mesh service. -/
structure BluetoothDevice where
  id : String
  name : String
  userId : String
  signalStrength : Nat
  isNearby : Bool
  bluetoothId : Option String
  lastSeen : Nat
  distance : Nat
deriving DecidableEq, Repr

/-- A message in transit on behalf of another peer, interface CarriedMessage. -/
structure CarriedMessage where
  id : String
  encryptedContent : List Nat
  recipientId : String
  senderId : String
  conversationId : String
  createdAt : Nat
  relayPath : List String
  expiresAt : Nat
deriving DecidableEq, Repr

/-- A locally stored message, interface OfflineMessage of the offline
message service (BluetoothMeshService.ts line 314). -/
structure OfflineMessage where
  id : String
  conversationId : String
  senderId : String
  recipientId : String
  content : List Nat
  createdAt : Nat
  synced : Bool
deriving DecidableEq, Repr

/-- signalToDistance from BluetoothMeshService.  The source computes
Math.round of (100-q) times 0.3 and so on in doubles; for integer q in
[0,100] the double results round exactly like the rational values, so
the embedding uses exact arithmetic: Math.round (m/10) = (m+5)/10 in
natural division (Math.round sends halves toward positive infinity). -/
def signalToDistance (signalStrength : Nat) : Nat :=
  if 90 ≤ signalStrength then 0
  else if 75 ≤ signalStrength then ((100 - signalStrength) * 3 + 5) / 10
  else if 50 ≤ signalStrength then ((75 - signalStrength) * 2 + 55) / 10
  else if 25 ≤ signalStrength then ((50 - signalStrength) * 2 + 105) / 10
  else ((25 - signalStrength) * 4 + 155) / 10

/-- The per-peer signal history store (localStorage key
connktus_signal_history); timestamps are irrelevant to the claims and
only the signal values are kept, oldest first as in the source array. -/
def historyFor (history : List (String × List Nat)) (deviceId : String) : List Nat :=
  match history.find? (fun p => p.1 = deviceId) with
  | some p => p.2
  | none => []

/-- getSmoothedSignal from BluetoothMeshService: linearly weighted mean
of the stored readings, weight = index + 1, Math.round of the quotient.
Math.round (ws/tw) equals (2 ws + tw) / (2 tw) in natural division; for
the magnitudes reachable here the double quotient rounds identically. -/
def getSmoothedSignal (history : List (String × List Nat)) (deviceId : String) : Nat :=
  let readings := historyFor history deviceId
  if readings.isEmpty then 0
  else
    let weightedSum := ((List.enum readings).map (fun p => p.2 * (p.1 + 1))).sum
    let totalWeight := ((List.enum readings).map (fun p => p.1 + 1)).sum
    (2 * weightedSum + totalWeight) / (2 * totalWeight)

/-- updateDeviceSignal from BluetoothMeshService: append the reading and
keep only the last 10 (slice(-10)). -/
def updateDeviceSignal (history : List (String × List Nat)) (deviceId : String)
    (signal : Nat) : List (String × List Nat) :=
  let readings := historyFor history deviceId ++ [signal]
  let trimmed := if 10 < readings.length then readings.drop (readings.length - 10) else readings
  if history.any (fun p => p.1 = deviceId) then
    history.map (fun p => if p.1 = deviceId then (p.1, trimmed) else p)
  else history ++ [(deviceId, trimmed)]

/-- getCarriedMessages and saveCarriedMessages are storage reads and
writes; the carried set is a plain list field below.  addCarriedMessage
from BluetoothMeshService: idempotent insert keyed by id; on insert the
local bluetooth id is appended to relayPath. -/
def addCarriedMessage (myBluetoothId : String) (carried : List CarriedMessage)
    (message : CarriedMessage) : List CarriedMessage :=
  if carried.any (fun m => m.id = message.id) then carried
  else carried ++ [{ message with relayPath := message.relayPath ++ [myBluetoothId] }]

/-- removeCarriedMessage from BluetoothMeshService. -/
def removeCarriedMessage (carried : List CarriedMessage) (messageId : String) :
    List CarriedMessage :=
  carried.filter (fun m => m.id ≠ messageId)

/-- cleanupExpiredCarriedMessages from BluetoothMeshService: keep only
entries with expiresAt strictly after now. -/
def cleanupExpiredCarriedMessages (now : Nat) (carried : List CarriedMessage) :
    List CarriedMessage :=
  carried.filter (fun m => now < m.expiresAt)

/-!
Obfuscation cipher (encryptMessage / decryptMessage).  The source XORs
each UTF-16 code unit of the content with the fixed repeating key, then
runs btoa(unescape(encodeURIComponent(s))): encodeURIComponent followed
by unescape yields the UTF-8 byte sequence of the string (surrogate
pairs become one four-byte sequence; a lone surrogate makes
encodeURIComponent throw, which is embedded as Option.none), and btoa
base64-encodes those bytes.  Decryption runs the exact inverse chain
and, on any decoding failure, the source catch clause returns the input
unchanged.
-/

/-- Code units of the fixed key string connktus_secure_key_2024. -/
def xorKeyCodes : List Nat :=
  [99, 111, 110, 110, 107, 116, 117, 115, 95, 115, 101, 99,
   117, 114, 101, 95, 107, 101, 121, 95, 50, 48, 50, 52]

/-- The XOR loop of encryptMessage and decryptMessage, with i the
running index into the content. -/
def xorWithKeyAux (i : Nat) : List Nat → List Nat
  | [] => []
  | c :: cs =>
      Nat.xor c (xorKeyCodes.getD (i % xorKeyCodes.length) 0) :: xorWithKeyAux (i + 1) cs

/-- XOR the content with the repeating key, starting at index 0. -/
def xorWithKey (content : List Nat) : List Nat := xorWithKeyAux 0 content

/-- High surrogate test on a UTF-16 code unit. -/
def isHighSurrogate (u : Nat) : Bool := decide (55296 ≤ u) && decide (u < 56320)

/-- Low surrogate test on a UTF-16 code unit. -/
def isLowSurrogate (u : Nat) : Bool := decide (56320 ≤ u) && decide (u < 57344)

/-- UTF-8 encoding of a UTF-16 code-unit sequence, the effect of
encodeURIComponent followed by unescape; none models the URIError
thrown on a lone surrogate. -/
def utf8EncodeUnits : List Nat → Option (List Nat)
  | [] => some []
  | u :: rest =>
      if u < 128 then
        (utf8EncodeUnits rest).map (fun bs => u :: bs)
      else if u < 2048 then
        (utf8EncodeUnits rest).map (fun bs => (192 + u / 64) :: (128 + u % 64) :: bs)
      else if isHighSurrogate u then
        match rest with
        | v :: rest2 =>
            if isLowSurrogate v then
              let cp := 65536 + (u - 55296) * 1024 + (v - 56320)
              (utf8EncodeUnits rest2).map (fun bs =>
                (240 + cp / 262144) :: (128 + cp / 4096 % 64) ::
                (128 + cp / 64 % 64) :: (128 + cp % 64) :: bs)
            else none
        | [] => none
      else if isLowSurrogate u then none
      else if u < 65536 then
        (utf8EncodeUnits rest).map (fun bs =>
          (224 + u / 4096) :: (128 + u / 64 % 64) :: (128 + u % 64) :: bs)
      else none

/-- Continuation byte test for UTF-8 decoding. -/
def isContinuationByte (b : Nat) : Bool := decide (128 ≤ b) && decide (b < 192)

/-- UTF-8 decoding back to UTF-16 code units, the effect of escape
followed by decodeURIComponent; none models the URIError thrown on a
malformed sequence.  Code points beyond 65535 come back as a surrogate
pair, exactly as in JavaScript. -/
def utf8DecodeBytes : List Nat → Option (List Nat)
  | [] => some []
  | b :: bs =>
      if b < 128 then
        (utf8DecodeBytes bs).map (fun us => b :: us)
      else if 192 ≤ b ∧ b < 224 then
        if 1 ≤ bs.length ∧ isContinuationByte (bs.getD 0 0) = true ∧
            128 ≤ (b - 192) * 64 + (bs.getD 0 0 - 128) then
          (utf8DecodeBytes (bs.drop 1)).map (fun us =>
            ((b - 192) * 64 + (bs.getD 0 0 - 128)) :: us)
        else none
      else if 224 ≤ b ∧ b < 240 then
        if 2 ≤ bs.length ∧ isContinuationByte (bs.getD 0 0) = true ∧
            isContinuationByte (bs.getD 1 0) = true ∧
            2048 ≤ (b - 224) * 4096 + (bs.getD 0 0 - 128) * 64 + (bs.getD 1 0 - 128) ∧
            (isHighSurrogate ((b - 224) * 4096 + (bs.getD 0 0 - 128) * 64 + (bs.getD 1 0 - 128)) ||
             isLowSurrogate ((b - 224) * 4096 + (bs.getD 0 0 - 128) * 64 + (bs.getD 1 0 - 128))) = false then
          (utf8DecodeBytes (bs.drop 2)).map (fun us =>
            ((b - 224) * 4096 + (bs.getD 0 0 - 128) * 64 + (bs.getD 1 0 - 128)) :: us)
        else none
      else if 240 ≤ b ∧ b < 248 then
        if 3 ≤ bs.length ∧ isContinuationByte (bs.getD 0 0) = true ∧
            isContinuationByte (bs.getD 1 0) = true ∧
            isContinuationByte (bs.getD 2 0) = true ∧
            65536 ≤ (b - 240) * 262144 + (bs.getD 0 0 - 128) * 4096 +
              (bs.getD 1 0 - 128) * 64 + (bs.getD 2 0 - 128) ∧
            (b - 240) * 262144 + (bs.getD 0 0 - 128) * 4096 +
              (bs.getD 1 0 - 128) * 64 + (bs.getD 2 0 - 128) < 1114112 then
          (utf8DecodeBytes (bs.drop 3)).map (fun us =>
            (55296 + ((b - 240) * 262144 + (bs.getD 0 0 - 128) * 4096 +
              (bs.getD 1 0 - 128) * 64 + (bs.getD 2 0 - 128) - 65536) / 1024) ::
            (56320 + ((b - 240) * 262144 + (bs.getD 0 0 - 128) * 4096 +
              (bs.getD 1 0 - 128) * 64 + (bs.getD 2 0 - 128) - 65536) % 1024) :: us)
        else none
      else none
termination_by l => l.length
decreasing_by
  all_goals simp only [List.length_cons, List.length_drop]
  all_goals omega

/-- The base64 alphabet, as a map from a sextet to a character code. -/
def base64Char (n : Nat) : Nat :=
  if n < 26 then 65 + n
  else if n < 52 then 71 + n
  else if n < 62 then n - 4
  else if n = 62 then 43
  else 47

/-- Inverse of the base64 alphabet; none on a character outside it. -/
def base64DecodeChar (c : Nat) : Option Nat :=
  if 65 ≤ c ∧ c ≤ 90 then some (c - 65)
  else if 97 ≤ c ∧ c ≤ 122 then some (c - 71)
  else if 48 ≤ c ∧ c ≤ 57 then some (c + 4)
  else if c = 43 then some 62
  else if c = 47 then some 63
  else none

/-- btoa: base64-encode a byte sequence into character codes, with the
pad character 61 closing a short final group. -/
def base64Encode : List Nat → List Nat
  | [] => []
  | [b0] => [base64Char (b0 / 4), base64Char (b0 % 4 * 16), 61, 61]
  | [b0, b1] =>
      [base64Char (b0 / 4), base64Char (b0 % 4 * 16 + b1 / 16), base64Char (b1 % 16 * 4), 61]
  | b0 :: b1 :: b2 :: rest =>
      base64Char (b0 / 4) :: base64Char (b0 % 4 * 16 + b1 / 16) ::
      base64Char (b1 % 16 * 4 + b2 / 64) :: base64Char (b2 % 64) :: base64Encode rest

/-- atob: decode base64 character codes back to bytes; none models the
InvalidCharacterError thrown on malformed input.  Like the forgiving
decode of the platform, trailing bits of a padded group are dropped. -/
def base64Decode : List Nat → Option (List Nat)
  | [] => some []
  | c0 :: c1 :: c2 :: c3 :: rest =>
      if c2 = 61 && c3 = 61 && rest.isEmpty then
        (base64DecodeChar c0).bind (fun s0 =>
          (base64DecodeChar c1).map (fun s1 => [s0 * 4 + s1 / 16]))
      else if c3 = 61 && rest.isEmpty then
        (base64DecodeChar c0).bind (fun s0 =>
          (base64DecodeChar c1).bind (fun s1 =>
            (base64DecodeChar c2).map (fun s2 =>
              [s0 * 4 + s1 / 16, s1 % 16 * 16 + s2 / 4])))
      else
        (base64DecodeChar c0).bind (fun s0 =>
          (base64DecodeChar c1).bind (fun s1 =>
            (base64DecodeChar c2).bind (fun s2 =>
              (base64DecodeChar c3).bind (fun s3 =>
                (base64Decode rest).map (fun bs =>
                  (s0 * 4 + s1 / 16) :: (s1 % 16 * 16 + s2 / 4) :: (s2 % 4 * 64 + s3) :: bs)))))
  | _ => none

/-- encryptMessage from BluetoothMeshService: XOR with the repeating
key, UTF-8 encode, base64 encode; none models a thrown URIError. -/
def encryptMessage (content : List Nat) : Option (List Nat) :=
  (utf8EncodeUnits (xorWithKey content)).map base64Encode

/-- decryptMessage from BluetoothMeshService: base64 decode, UTF-8
decode, XOR with the repeating key; the catch clause returns the input
unchanged when either decoding step fails. -/
def decryptMessage (encryptedContent : List Nat) : List Nat :=
  match (base64Decode encryptedContent).bind utf8DecodeBytes with
  | some decoded => xorWithKey decoded
  | none => encryptedContent

/-- A UTF-16 code-unit sequence is well formed when every high
surrogate is followed by a low surrogate, no low surrogate appears
bare, and every unit fits in 16 bits; every JavaScript string holding
well-formed text satisfies this. -/
def wellFormedUtf16 : List Nat → Bool
  | [] => true
  | u :: rest =>
      if isHighSurrogate u then
        match rest with
        | v :: rest2 => isLowSurrogate v && wellFormedUtf16 rest2
        | [] => false
      else !isLowSurrogate u && decide (u < 65536) && wellFormedUtf16 rest

/-!
Mesh manager state.  The MeshNetworkManager instance fields and the
localStorage stores it touches are gathered into one record; setInterval
is embedded as allocation of a fresh timer id which stays in
activeTimers until a clearInterval, and notifyMessageListeners as an
append to deliveredEvents.
-/

/-- saveMessageLocally from the offline message service (the second
module concatenated into src/src/services/BluetoothMeshService.ts,
line 338): read the stored array, push the message, write it back,
hence an append.  The try/catch there only silences storage failures,
which are not modelled. -/
def saveMessageLocally (store : List OfflineMessage) (message : OfflineMessage) :
    List OfflineMessage :=
  store ++ [message]

/-- markMessageSynced from the offline message service
(BluetoothMeshService.ts line 349): map over the stored array, setting
synced on every message with the given id. -/
def markMessageSynced (store : List OfflineMessage) (messageId : String) :
    List OfflineMessage :=
  store.map (fun m => if m.id = messageId then { m with synced := true } else m)

/-- The combined state of a MeshNetworkManager instance and the local
stores it reads and writes. -/
structure MeshState where
  userId : String
  bluetoothId : String
  now : Nat
  contacts : List Contact
  nearbyDevices : List BluetoothDevice
  carried : List CarriedMessage
  offline : List OfflineMessage
  signalHistory : List (String × List Nat)
  deliveredEvents : List OfflineMessage
  pendingSync : List String
  scanInterval : Option Nat
  relayInterval : Option Nat
  signalUpdateInterval : Option Nat
  activeTimers : List Nat
  nextTimerId : Nat
  rng : List Nat
deriving DecidableEq, Repr

/-- getSavedContacts from the offline message service
(BluetoothMeshService.ts line 391): read the persisted contact list,
the contacts field of the state. -/
def getSavedContacts (st : MeshState) : List Contact := st.contacts

/-- Lookup in the peer table followed by the optional-chaining isNearby
test, as in recipientDevice?.isNearby. -/
def isNearbyIn (devices : List BluetoothDevice) (userId : String) : Bool :=
  match devices.find? (fun d => d.userId = userId) with
  | some d => d.isNearby
  | none => false

/-- setInterval: allocate a fresh timer id and keep it active. -/
def setIntervalTimer (st : MeshState) : Nat × MeshState :=
  (st.nextTimerId,
   { st with activeTimers := st.activeTimers ++ [st.nextTimerId],
             nextTimerId := st.nextTimerId + 1 })

namespace MeshNetworkManager

/-- The device built for one contact inside the scanForDevices map:
reuse the smoothed signal when it is nonzero, otherwise fall back to
the existing device entry, otherwise draw an initial value in the range
50 to 79 from the random stream. -/
def buildDevice (nearby : List BluetoothDevice) (history : List (String × List Nat))
    (now : Nat) (rng : List Nat) (contact : Contact) : BluetoothDevice × List Nat :=
  let existingDevice := nearby.find? (fun d => d.userId = contact.userId)
  let smoothedSignal := getSmoothedSignal history contact.userId
  let sr : Nat × List Nat :=
    if smoothedSignal = 0 then
      match existingDevice with
      | some d => (d.signalStrength, rng)
      | none => (rng.headD 0 % 30 + 50, rng.tail)
    else (smoothedSignal, rng)
  let signalStrength := sr.1
  let isNearby := decide (20 < signalStrength)
  ({ id := contact.bluetoothId.getD contact.userId,
     name := contact.displayName,
     userId := contact.userId,
     signalStrength := signalStrength,
     isNearby := isNearby,
     bluetoothId := contact.bluetoothId,
     lastSeen := if isNearby then now else
       (match existingDevice with | some d => d.lastSeen | none => now),
     distance := signalToDistance signalStrength }, sr.2)

/-- The savedContacts.map loop of scanForDevices, threading the random
stream left to right. -/
def buildDevices (nearby : List BluetoothDevice) (history : List (String × List Nat))
    (now : Nat) : List Nat → List Contact → List BluetoothDevice × List Nat
  | rng, [] => ([], rng)
  | rng, c :: cs =>
      let dr := buildDevice nearby history now rng c
      let rest := buildDevices nearby history now dr.2 cs
      (dr.1 :: rest.1, rest.2)

/-- Map.set on the peer table: replace in place when the key exists,
append otherwise (JS Map keeps insertion order). -/
def mapSetDevice (devices : List BluetoothDevice) (d : BluetoothDevice) :
    List BluetoothDevice :=
  if devices.any (fun e => e.userId = d.userId) then
    devices.map (fun e => if e.userId = d.userId then d else e)
  else devices ++ [d]

/-- The devices.forEach update loop of scanForDevices: a nearby device
is written into the peer table and its reading pushed into the signal
history; an out-of-range one degrades the existing entry in place. -/
def applyScanUpdate (st : MeshState) (d : BluetoothDevice) : MeshState :=
  if d.isNearby then
    { st with nearbyDevices := mapSetDevice st.nearbyDevices d,
              signalHistory := updateDeviceSignal st.signalHistory d.userId d.signalStrength }
  else
    { st with nearbyDevices := st.nearbyDevices.map (fun e =>
        if e.userId = d.userId then
          { e with isNearby := false, signalStrength := d.signalStrength,
                   distance := d.distance }
        else e) }

/-- scanForDevices from BluetoothMeshService: build one candidate per
saved contact, then apply the update loop and persist. -/
def scanForDevices (st : MeshState) : List BluetoothDevice × MeshState :=
  let dr := buildDevices st.nearbyDevices st.signalHistory st.now st.rng (getSavedContacts st)
  (dr.1, dr.1.foldl applyScanUpdate { st with rng := dr.2 })

/-- The delivered message synthesized by deliverCarriedMessage. -/
def offlineOfCarried (c : CarriedMessage) : OfflineMessage :=
  { id := c.id, conversationId := c.conversationId, senderId := c.senderId,
    recipientId := c.recipientId, content := decryptMessage c.encryptedContent,
    createdAt := c.createdAt, synced := true }

/-- deliverCarriedMessage from BluetoothMeshService: decrypt, notify the
message listeners, remove the entry from the carried set. -/
def deliverCarriedMessage (st : MeshState) (c : CarriedMessage) : MeshState :=
  { st with deliveredEvents := st.deliveredEvents ++ [offlineOfCarried c],
            carried := removeCarriedMessage st.carried c.id }

/-- processCarriedMessages from BluetoothMeshService: deliver every
entry of the carried-set snapshot whose recipient is nearby.  No expiry
test appears here in the source. -/
def processCarriedMessages (st : MeshState) : MeshState :=
  st.carried.foldl (fun acc c =>
    if isNearbyIn acc.nearbyDevices c.recipientId then deliverCarriedMessage acc c
    else acc) st

/-- The carrier filter of findCarrierForMessage; the chosen carrier is
the head of the filtered peer table. -/
def chooseCarrier (st : MeshState) (message : OfflineMessage) : Option BluetoothDevice :=
  (st.nearbyDevices.filter (fun d =>
    d.isNearby && d.userId ≠ st.userId && d.userId ≠ message.recipientId)).head?

/-- findCarrierForMessage from BluetoothMeshService: when an eligible
peer is nearby, build a CarriedMessage (fresh expiry seven days from
now, createdAt copied from the message, relayPath seeded with the own
bluetooth id) and insert it with addCarriedMessage; none models a
URIError escaping from encryptMessage. -/
def findCarrierForMessage (st : MeshState) (message : OfflineMessage) :
    Option MeshState :=
  match chooseCarrier st message with
  | none => some st
  | some _ =>
      match encryptMessage message.content with
      | none => none
      | some enc =>
          let carriedMessage : CarriedMessage :=
            { id := message.id, encryptedContent := enc,
              recipientId := message.recipientId, senderId := message.senderId,
              conversationId := message.conversationId, createdAt := message.createdAt,
              relayPath := [st.bluetoothId],
              expiresAt := st.now + 7 * 24 * 60 * 60 * 1000 }
          some { st with carried := addCarriedMessage st.bluetoothId st.carried carriedMessage }

/-- The loop body of processMessageDelivery for one pending message:
skip an empty recipient, deliver directly when the recipient is nearby
(deliverMessageDirectly is markMessageSynced), otherwise look for a
carrier. -/
def processOneMessage (st : MeshState) (message : OfflineMessage) : Option MeshState :=
  if message.recipientId = "" then some st
  else if isNearbyIn st.nearbyDevices message.recipientId then
    some { st with offline := markMessageSynced st.offline message.id }
  else findCarrierForMessage st message

/-- processMessageDelivery from BluetoothMeshService: run the loop body
over the snapshot of own unsynced messages. -/
def processMessageDelivery (st : MeshState) : Option MeshState :=
  (st.offline.filter (fun m => m.senderId = st.userId && !m.synced)).foldlM
    processOneMessage st

/-- One relay tick as scheduled by startRelayService:
processMessageDelivery then processCarriedMessages. -/
def relayTick (st : MeshState) : Option MeshState :=
  (processMessageDelivery st).map processCarriedMessages

/-- startPeriodicScan from BluetoothMeshService: schedule the scan timer
and run one scan immediately. -/
def startPeriodicScan (st : MeshState) : MeshState :=
  let p := setIntervalTimer st
  (scanForDevices { p.2 with scanInterval := some p.1 }).2

/-- startRelayService from BluetoothMeshService: schedule the relay
timer and run one relay pass immediately. -/
def startRelayService (st : MeshState) : Option MeshState :=
  let p := setIntervalTimer st
  relayTick { p.2 with relayInterval := some p.1 }

/-- startSignalTracking from BluetoothMeshService: schedule the signal
update timer (no immediate pass). -/
def startSignalTracking (st : MeshState) : MeshState :=
  let p := setIntervalTimer st
  { p.2 with signalUpdateInterval := some p.1 }

/-- start from BluetoothMeshService: cleanup of expired carried
messages, then startPeriodicScan, startRelayService and
startSignalTracking, in that order and with no running-state guard. -/
def start (st : MeshState) : Option MeshState :=
  let st1 := { st with carried := cleanupExpiredCarriedMessages st.now st.carried }
  (startRelayService (startPeriodicScan st1)).map startSignalTracking

/-- sendMessage from BluetoothMeshService; messageId stands for the
crypto.randomUUID draw and createdAt is the current time.  When the
recipient is nearby the message is saved and its synced flip deferred
(the setTimeout callback is recorded in pendingSync); otherwise a
CarriedMessage seeded with the own bluetooth id is queued in the own
carried set unconditionally. -/
def sendMessage (st : MeshState) (recipientId : String) (content : List Nat)
    (conversationId : String) (messageId : String) : Option (MeshState × String) :=
  match encryptMessage content with
  | none => none
  | some encryptedContent =>
      let createdAt := st.now
      let isNearby := isNearbyIn st.nearbyDevices recipientId
      let offlineMessage : OfflineMessage :=
        { id := messageId, conversationId := conversationId, senderId := st.userId,
          recipientId := recipientId, content := content, createdAt := createdAt,
          synced := false }
      let st1 := { st with offline := saveMessageLocally st.offline offlineMessage }
      if isNearby then
        some ({ st1 with pendingSync := st1.pendingSync ++ [messageId] }, messageId)
      else
        let carriedMessage : CarriedMessage :=
          { id := messageId, encryptedContent := encryptedContent,
            recipientId := recipientId, senderId := st.userId,
            conversationId := conversationId, createdAt := createdAt,
            relayPath := [st.bluetoothId],
            expiresAt := st.now + 7 * 24 * 60 * 60 * 1000 }
        some ({ st1 with carried := addCarriedMessage st1.bluetoothId st1.carried carriedMessage },
              messageId)

end MeshNetworkManager

/-- The whitespace class of the string trim method (the common space
characters, the ASCII controls of the White_Space class, NBSP, the
Unicode space separators, the line separators and the BOM). -/
def isJsWhitespace (c : Nat) : Bool :=
  c = 32 || c = 9 || c = 10 || c = 11 || c = 12 || c = 13 || c = 160 ||
  c = 5760 || (8192 ≤ c && c ≤ 8202) || c = 8232 || c = 8233 ||
  c = 8239 || c = 8287 || c = 12288 || c = 65279

/-- content.trim() on a code-unit list. -/
def jsTrim (s : List Nat) : List Nat :=
  ((s.dropWhile isJsWhitespace).reverse.dropWhile isJsWhitespace).reverse

namespace UseMessages

/-- sendMessage from the useMessages hook: reject when the conversation
or the user is missing or the trimmed content is empty, before any
persistence; otherwise save the trimmed message locally and report
success.  The local component-state update is not persistence and is
not modelled. -/
def sendMessage (conversationId : Option String) (user : Option String)
    (content : List Nat) (now : Nat) (messageId : String)
    (store : List OfflineMessage) : Bool × List OfflineMessage :=
  match conversationId, user with
  | some cid, some uid =>
      if jsTrim content = [] then (false, store)
      else
        (true, saveMessageLocally store
          { id := messageId, conversationId := cid, senderId := uid,
            recipientId := "", content := jsTrim content, createdAt := now,
            synced := false })
  | _, _ => (false, store)

end UseMessages

/-!
Concrete sample data used by the closed evaluation theorems below.
-/

/-- An in-range device for peer B. -/
def devB : BluetoothDevice :=
  { id := "b1", name := "B", userId := "B", signalStrength := 80, isNearby := true,
    bluetoothId := some "b1", lastSeen := 0, distance := 6 }

/-- An in-range device for peer C, a potential carrier. -/
def devC : BluetoothDevice :=
  { id := "c9", name := "C", userId := "C", signalStrength := 80, isNearby := true,
    bluetoothId := some "c9", lastSeen := 0, distance := 6 }

/-- A freshly started manager state for user A with empty stores. -/
def baseState : MeshState :=
  { userId := "A", bluetoothId := "a1", now := 1000, contacts := [],
    nearbyDevices := [], carried := [], offline := [], signalHistory := [],
    deliveredEvents := [], pendingSync := [], scanInterval := none,
    relayInterval := none, signalUpdateInterval := none, activeTimers := [],
    nextTimerId := 0, rng := [] }

/-- A carried message whose expiry (500) is already in the past at the
sample state time (1000). -/
def cmExpired : CarriedMessage :=
  { id := "m1", encryptedContent := [], recipientId := "B", senderId := "A",
    conversationId := "c1", createdAt := 0, relayPath := ["a1"], expiresAt := 500 }

/-- State holding one expired carried message while its recipient is in
range. -/
def stExpired : MeshState :=
  { baseState with carried := [cmExpired], nearbyDevices := [devB] }

/-- State where only the potential carrier C is in range. -/
def stCarrier : MeshState := { baseState with nearbyDevices := [devC] }

/-- A pending message authored at time 0, before the sample state time. -/
def msgOld : OfflineMessage :=
  { id := "m1", conversationId := "c1", senderId := "A", recipientId := "B",
    content := [104, 105], createdAt := 0, synced := false }

/-- A contact with a recorded all-zero signal history. -/
def contactP : Contact :=
  { userId := "P", displayName := "P", username := "p", bluetoothId := none,
    lastSeen := 0 }

/-- State whose signal history for P exists but smooths to zero. -/
def stZeroHistory : MeshState :=
  { baseState with signalHistory := [("P", [0])], rng := [13] }

/-- State holding one pending authored message while no peer at all is
in range. -/
def stPend : MeshState := { baseState with offline := [msgOld] }

/-- The carried entry stored by carrier assignment for msgOld in
stCarrier: content [104, 105] XORs to [11, 6] under the key and base64
encodes to the character codes of CwY with one pad (the ciphertext
bytes below); the own id a1 appears twice in relayPath because the
seeded path gets the id appended again on insert. -/
def cmStored : CarriedMessage :=
  { id := "m1", encryptedContent := [67, 119, 89, 61], recipientId := "B",
    senderId := "A", conversationId := "c1", createdAt := 0,
    relayPath := ["a1", "a1"], expiresAt := 604801000 }

/-!
Helper lemmas shared by the claim theorems.
-/

theorem head?_filter_eq_find? {α : Type} (p : α → Bool) (l : List α) :
    (l.filter p).head? = l.find? p := by
  induction l with
  | nil => rfl
  | cons a l ih =>
      by_cases h : p a = true
      · simp [List.filter_cons, List.find?_cons, h]
      · simp only [Bool.not_eq_true] at h
        simp [List.filter_cons, List.find?_cons, h, ih]

theorem mem_addCarriedMessage {bt : String} {carried : List CarriedMessage}
    {m c : CarriedMessage} (h : c ∈ addCarriedMessage bt carried m) :
    c ∈ carried ∨ c = { m with relayPath := m.relayPath ++ [bt] } := by
  unfold addCarriedMessage at h
  split at h
  · exact Or.inl h
  · rcases List.mem_append.1 h with h1 | h1
    · exact Or.inl h1
    · exact Or.inr (List.mem_singleton.1 h1)

theorem filter_addCarriedMessage_ne {bt : String} {carried : List CarriedMessage}
    {m : CarriedMessage} {i : String} (hne : m.id ≠ i) :
    (addCarriedMessage bt carried m).filter (fun c => c.id = i) =
      carried.filter (fun c => c.id = i) := by
  unfold addCarriedMessage
  split
  · rfl
  · simp [List.filter_append, hne]

/-!
C5: idempotent insert into the carried set.
-/

/-- C5: adding a CarriedMessage whose id already exists in the carried
set is a no-op: no second entry is queued and the existing entry is not
modified. -/
theorem addCarriedMessage_idempotent (bt : String) (carried : List CarriedMessage)
    (m : CarriedMessage) (h : carried.any (fun e => e.id = m.id) = true) :
    addCarriedMessage bt carried m = carried := by
  unfold addCarriedMessage
  simp [h]

/-- Witness for C5 at a concrete carried set already holding the id. -/
theorem addCarriedMessage_idempotent_witness :
    ([cmExpired].any (fun e => e.id = ({ cmExpired with relayPath := [] } : CarriedMessage).id)) = true ∧
    addCarriedMessage "z9" [cmExpired] { cmExpired with relayPath := [] } = [cmExpired] :=
  ⟨by decide, addCarriedMessage_idempotent "z9" [cmExpired] { cmExpired with relayPath := [] }
    (by decide)⟩

/-!
C8: monotonicity of signalToDistance.
-/

/-- C8 counterexample: signalToDistance is not monotonically decreasing
over [0,100]; at the branch boundary 74 to 75 the distance jumps from 5
up to 8. -/
theorem signalToDistance_not_antitone :
    signalToDistance 74 = 5 ∧ signalToDistance 75 = 8 ∧
    ¬ (∀ q1 q2 : Nat, q1 ≤ q2 → q2 ≤ 100 →
        signalToDistance q2 ≤ signalToDistance q1) := by
  refine ⟨by decide, by decide, fun h => ?_⟩
  have := h 74 75 (by decide) (by decide)
  revert this
  decide

/-- C8 amended: signalToDistance is monotonically decreasing on each
side of the q = 75 branch boundary (so in particular across the
boundaries at 90, 50 and 25), but not across 75. -/
theorem signalToDistance_antitone_off_75 (q1 q2 : Nat) (h12 : q1 ≤ q2) (h2 : q2 ≤ 100)
    (hside : q2 ≤ 74 ∨ 75 ≤ q1) : signalToDistance q2 ≤ signalToDistance q1 := by
  have hd : ∀ a : Fin 101, ∀ b : Fin 101, a.1 ≤ b.1 → (b.1 ≤ 74 ∨ 75 ≤ a.1) →
      signalToDistance b.1 ≤ signalToDistance a.1 := by decide
  exact hd ⟨q1, by omega⟩ ⟨q2, by omega⟩ h12 hside

/-- Witness for C8 amended on the upper branch. -/
theorem signalToDistance_antitone_off_75_witness :
    signalToDistance 80 ≤ signalToDistance 75 :=
  signalToDistance_antitone_off_75 75 80 (by decide) (by decide) (Or.inr (by decide))

/-!
C4: relay path on first hand-off.
-/

/-- C4: evaluation at the failing input.  Originating peer A (bluetooth
id a1) sends to the out-of-range peer B while carrier C is in range;
the stored CarriedMessage has relayPath [a1, a1], not [a1]: sendMessage
seeds relayPath with the own id and addCarriedMessage appends the same
id again. -/
theorem relayPath_duplicated_on_first_handoff :
    (MeshNetworkManager.sendMessage stCarrier "B" [104, 105] "c1" "m9").map
        (fun p => p.1.carried.map (fun c => c.relayPath)) = some [["a1", "a1"]] ∧
    ["a1", "a1"] ≠ ["a1"] := by
  exact ⟨rfl, by decide⟩

/-!
C3: expiry versus creation time of carried messages.
-/

/-- C3 counterexample: carrier assignment at time 1000 for a message
created at time 0 stores expiresAt 604801000, which is not createdAt
plus seven days (604800000). -/
theorem carried_expiry_not_from_creation :
    (MeshNetworkManager.findCarrierForMessage stCarrier msgOld).map
        (fun s => s.carried.map (fun c => (c.createdAt, c.expiresAt))) =
      some [(0, 604801000)] ∧ (0 : Nat) + 604800000 ≠ 604801000 := by
  exact ⟨rfl, by decide⟩

/-- C3 amended: every CarriedMessage placed in the carried set has
expiresAt equal to the placement time plus seven days; its createdAt is
copied from the original message, so expiresAt equals createdAt plus
seven days exactly when placement happens at the creation time, as in
sendMessage, but not under later carrier assignment in
findCarrierForMessage. -/
theorem carried_expiry_is_assignment_time_plus_7d :
    (∀ (st : MeshState) (m : OfflineMessage) (st' : MeshState),
        MeshNetworkManager.findCarrierForMessage st m = some st' →
        ∀ c ∈ st'.carried, c ∈ st.carried ∨
          (c.createdAt = m.createdAt ∧ c.expiresAt = st.now + 604800000)) ∧
    (∀ (st : MeshState) (r : String) (ct : List Nat) (cv mid : String)
        (st' : MeshState) (x : String),
        MeshNetworkManager.sendMessage st r ct cv mid = some (st', x) →
        ∀ c ∈ st'.carried, c ∈ st.carried ∨ c.expiresAt = c.createdAt + 604800000) := by
  constructor
  · intro st m st' h c hc
    unfold MeshNetworkManager.findCarrierForMessage at h
    split at h
    · cases h
      exact Or.inl hc
    · split at h
      · cases h
      · cases h
        rcases mem_addCarriedMessage hc with h1 | h1
        · exact Or.inl h1
        · subst h1
          exact Or.inr ⟨rfl, rfl⟩
  · intro st r ct cv mid st' x h c hc
    unfold MeshNetworkManager.sendMessage at h
    split at h
    · cases h
    · dsimp only at h
      split at h
      · cases h
        exact Or.inl hc
      · cases h
        rcases mem_addCarriedMessage hc with h1 | h1
        · exact Or.inl h1
        · subst h1
          exact Or.inr rfl

/-- Witness for C3 amended at the concrete carrier assignment. -/
theorem carried_expiry_is_assignment_time_plus_7d_witness :
    cmStored.createdAt = msgOld.createdAt ∧
    cmStored.expiresAt = stCarrier.now + 604800000 := by
  have h := carried_expiry_is_assignment_time_plus_7d.1 stCarrier msgOld
    ((MeshNetworkManager.findCarrierForMessage stCarrier msgOld).getD baseState)
    rfl cmStored (by decide)
  rcases h with h | h
  · exact absurd h (by decide)
  · exact h

/-!
C2: pending messages with no eligible carrier, and carrier choice.
-/

/-- C2 counterexample: with no in-range peer at all, sendMessage to the
out-of-range recipient B still queues a CarriedMessage for the fresh id
in the own carried set, so a CarriedMessage for the id is created even
though no carrier exists; the message itself stays unsynced. -/
theorem carried_queued_without_carrier :
    baseState.nearbyDevices = [] ∧
    (MeshNetworkManager.sendMessage baseState "B" [104, 105] "c1" "m2").map
        (fun p => (p.1.carried.map (fun c => c.id),
                   p.1.offline.map (fun m => (m.id, m.synced)))) =
      some (["m2"], [("m2", false)]) :=
  ⟨rfl, rfl⟩

/-!
C7: rejection of empty or whitespace-only content in the hook send.
-/

/-- C7: sending content that is empty or whitespace-only is rejected by
the useMessages sendMessage before any persistence: the call returns
false and the local message store is unchanged. -/
theorem hook_send_rejects_blank_content (conversationId user : Option String)
    (content : List Nat) (now : Nat) (messageId : String)
    (store : List OfflineMessage)
    (hblank : ∀ c ∈ content, isJsWhitespace c = true) :
    UseMessages.sendMessage conversationId user content now messageId store =
      (false, store) := by
  have htrim : jsTrim content = [] := by
    unfold jsTrim
    have h1 : content.dropWhile isJsWhitespace = [] :=
      List.dropWhile_eq_nil_iff.2 hblank
    simp [h1]
  unfold UseMessages.sendMessage
  match conversationId, user with
  | none, _ => rfl
  | some cid, none => rfl
  | some cid, some uid => simp [htrim]

/-- Witness for C7 on a space plus tab content string. -/
theorem hook_send_rejects_blank_content_witness :
    UseMessages.sendMessage (some "c1") (some "A") [32, 9] 0 "m3" [] = (false, []) :=
  hook_send_rejects_blank_content (some "c1") (some "A") [32, 9] 0 "m3" [] (by decide)

/-!
C10: candidate signal selection in the scan.
-/

/-- C10 counterexample: for contact P a smoothing history exists (one
stored reading, value 0) yet its smoothed value is 0, so the scan does
not reuse it and instead synthesizes a fresh initial value (63 under
the sample random stream), which differs from the smoothed value. -/
theorem candidate_ignores_zero_smoothed_history :
    historyFor stZeroHistory.signalHistory "P" = [0] ∧
    getSmoothedSignal stZeroHistory.signalHistory "P" = 0 ∧
    (MeshNetworkManager.buildDevice stZeroHistory.nearbyDevices
        stZeroHistory.signalHistory stZeroHistory.now stZeroHistory.rng
        contactP).1.signalStrength = 63 ∧
    (63 : Nat) ≠ 0 := by
  exact ⟨rfl, rfl, rfl, by decide⟩

/-- C10 amended: the candidate equals the smoothed value exactly when
that value is nonzero; a zero smoothed value (no history, or a history
that smooths to zero) falls back to the existing device entry when one
exists and otherwise synthesizes an initial value in [50, 80). -/
theorem candidate_signal_selection (nearby : List BluetoothDevice)
    (history : List (String × List Nat)) (now : Nat) (rng : List Nat)
    (c : Contact) :
    (getSmoothedSignal history c.userId ≠ 0 →
      (MeshNetworkManager.buildDevice nearby history now rng c).1.signalStrength =
        getSmoothedSignal history c.userId) ∧
    (getSmoothedSignal history c.userId = 0 →
      match nearby.find? (fun d => d.userId = c.userId) with
      | some d =>
          (MeshNetworkManager.buildDevice nearby history now rng c).1.signalStrength =
            d.signalStrength
      | none =>
          50 ≤ (MeshNetworkManager.buildDevice nearby history now rng c).1.signalStrength ∧
          (MeshNetworkManager.buildDevice nearby history now rng c).1.signalStrength < 80) := by
  constructor
  · intro h
    unfold MeshNetworkManager.buildDevice
    simp [h]
  · intro h
    unfold MeshNetworkManager.buildDevice
    rcases hf : nearby.find? (fun d => d.userId = c.userId) with _ | d
    · simp [hf, h]
      have hb : rng.headD 0 % 30 < 30 := Nat.mod_lt _ (by decide)
      omega
    · simp [hf, h]

/-- Witness for C10 amended at a state with no history and no existing
entry: the synthesized candidate lies in [50, 80). -/
theorem candidate_signal_selection_witness :
    getSmoothedSignal [] "Q" = 0 ∧
    (50 ≤ (MeshNetworkManager.buildDevice [] [] 0 [7]
        { userId := "Q", displayName := "Q", username := "q", bluetoothId := none,
          lastSeen := 0 }).1.signalStrength ∧
     (MeshNetworkManager.buildDevice [] [] 0 [7]
        { userId := "Q", displayName := "Q", username := "q", bluetoothId := none,
          lastSeen := 0 }).1.signalStrength < 80) := by
  refine ⟨rfl, ?_⟩
  have h := (candidate_signal_selection [] [] 0 [7]
    { userId := "Q", displayName := "Q", username := "q", bluetoothId := none,
      lastSeen := 0 }).2 rfl
  simpa using h

/-!
Preservation lemmas for the relay processing functions.
-/

theorem foldlM_option_inv {α σ : Type} {f : σ → α → Option σ} {P : σ → Prop} :
    ∀ (L : List α) (s : σ), P s →
      (∀ s' a, a ∈ L → P s' → ∀ s'', f s' a = some s'' → P s'') →
      ∀ r, L.foldlM f s = some r → P r := by
  intro L
  induction L with
  | nil =>
      intro s hP _ r hr
      simp only [List.foldlM_nil] at hr
      cases hr
      exact hP
  | cons a L ih =>
      intro s hP hstep r hr
      simp only [List.foldlM_cons] at hr
      cases hfa : f s a with
      | none => rw [hfa] at hr; cases hr
      | some s1 =>
          rw [hfa] at hr
          exact ih s1 (hstep s a (List.mem_cons_self a L) hP s1 hfa)
            (fun s' b hb => hstep s' b (List.mem_cons_of_mem a hb)) r hr

theorem mem_markMessageSynced_of_ne {store : List OfflineMessage} {m : OfflineMessage}
    {i : String} (hm : m ∈ store) (hne : m.id ≠ i) : m ∈ markMessageSynced store i := by
  unfold markMessageSynced
  have heq : (fun x : OfflineMessage =>
      if x.id = i then { x with synced := true } else x) m = m := by
    simp [hne]
  exact heq ▸ List.mem_map_of_mem _ hm

theorem markMessageSynced_preserves_uniq {store : List OfflineMessage} {i : String}
    {m : OfflineMessage} (hne : m.id ≠ i)
    (h : ∀ o ∈ store, o.id = m.id → o = m) :
    ∀ o ∈ markMessageSynced store i, o.id = m.id → o = m := by
  intro o ho hid
  unfold markMessageSynced at ho
  obtain ⟨o₀, ho₀, rfl⟩ := List.mem_map.1 ho
  by_cases hcase : o₀.id = i
  · rw [if_pos hcase] at hid ⊢
    exact absurd (hid ▸ hcase : m.id = i) hne
  · rw [if_neg hcase] at hid ⊢
    exact h o₀ ho₀ hid

theorem findCarrierForMessage_spec {st : MeshState} {m : OfflineMessage} {st' : MeshState}
    (h : MeshNetworkManager.findCarrierForMessage st m = some st') :
    ∃ carr, st' = { st with carried := carr } ∧
      (∀ c ∈ carr, c ∈ st.carried ∨ c.expiresAt = st.now + 604800000) ∧
      (∀ i, m.id ≠ i →
        carr.filter (fun c => c.id = i) = st.carried.filter (fun c => c.id = i)) := by
  unfold MeshNetworkManager.findCarrierForMessage at h
  split at h
  · cases h
    exact ⟨st.carried, rfl, fun c hc => Or.inl hc, fun i _ => rfl⟩
  · split at h
    · cases h
    · cases h
      refine ⟨_, rfl, ?_, ?_⟩
      · intro c hc
        rcases mem_addCarriedMessage hc with h1 | h1
        · exact Or.inl h1
        · subst h1
          exact Or.inr rfl
      · intro i hi
        exact filter_addCarriedMessage_ne hi

theorem processOneMessage_spec {st : MeshState} {a : OfflineMessage} {st' : MeshState}
    (h : MeshNetworkManager.processOneMessage st a = some st') :
    ∃ off carr, st' = { st with offline := off, carried := carr } ∧
      (off = st.offline ∨
        (isNearbyIn st.nearbyDevices a.recipientId = true ∧
         off = markMessageSynced st.offline a.id)) ∧
      (∀ c ∈ carr, c ∈ st.carried ∨ c.expiresAt = st.now + 604800000) ∧
      (∀ i, a.id ≠ i →
        carr.filter (fun c => c.id = i) = st.carried.filter (fun c => c.id = i)) ∧
      (isNearbyIn st.nearbyDevices a.recipientId = false →
        MeshNetworkManager.chooseCarrier st a = none → st' = st) := by
  unfold MeshNetworkManager.processOneMessage at h
  split at h
  · cases h
    exact ⟨st.offline, st.carried, rfl, Or.inl rfl, fun c hc => Or.inl hc,
      fun i _ => rfl, fun _ _ => rfl⟩
  · split at h
    · cases h
      rename_i hrec hnear
      refine ⟨markMessageSynced st.offline a.id, st.carried, rfl, Or.inr ⟨hnear, rfl⟩,
        fun c hc => Or.inl hc, fun i _ => rfl, ?_⟩
      intro hfalse _
      rw [hnear] at hfalse
      cases hfalse
    · rename_i hrec hnear
      obtain ⟨carr, heq, hmem, hfilter⟩ := findCarrierForMessage_spec h
      refine ⟨st.offline, carr, heq, Or.inl rfl, hmem, hfilter, ?_⟩
      intro _ hcc
      unfold MeshNetworkManager.findCarrierForMessage at h
      rw [hcc] at h
      cases h
      rfl

theorem applyScanUpdate_shape (st : MeshState) (d : BluetoothDevice) :
    ∃ nd sh, MeshNetworkManager.applyScanUpdate st d =
      { st with nearbyDevices := nd, signalHistory := sh } := by
  unfold MeshNetworkManager.applyScanUpdate
  split
  · exact ⟨_, _, rfl⟩
  · exact ⟨_, st.signalHistory, rfl⟩

theorem foldl_applyScanUpdate_shape :
    ∀ (ds : List BluetoothDevice) (st : MeshState),
      ∃ nd sh, ds.foldl MeshNetworkManager.applyScanUpdate st =
        { st with nearbyDevices := nd, signalHistory := sh } := by
  intro ds
  induction ds with
  | nil => intro st; exact ⟨st.nearbyDevices, st.signalHistory, rfl⟩
  | cons d ds ih =>
      intro st
      obtain ⟨nd1, sh1, h1⟩ := applyScanUpdate_shape st d
      obtain ⟨nd2, sh2, h2⟩ := ih (MeshNetworkManager.applyScanUpdate st d)
      rw [List.foldl_cons, h2, h1]
      exact ⟨nd2, sh2, rfl⟩

theorem scanForDevices_shape (st : MeshState) :
    ∃ nd sh r, (MeshNetworkManager.scanForDevices st).2 =
      { st with nearbyDevices := nd, signalHistory := sh, rng := r } := by
  unfold MeshNetworkManager.scanForDevices
  dsimp only
  obtain ⟨nd, sh, h⟩ := foldl_applyScanUpdate_shape
    (MeshNetworkManager.buildDevices st.nearbyDevices st.signalHistory st.now st.rng
      (getSavedContacts st)).1
    { st with rng := (MeshNetworkManager.buildDevices st.nearbyDevices st.signalHistory
        st.now st.rng (getSavedContacts st)).2 }
  rw [h]
  exact ⟨nd, sh, _, rfl⟩

theorem processMessageDelivery_spec {st : MeshState} {st' : MeshState}
    (h : MeshNetworkManager.processMessageDelivery st = some st') :
    ∃ off carr, st' = { st with offline := off, carried := carr } ∧
      ∀ c ∈ carr, c ∈ st.carried ∨ c.expiresAt = st.now + 604800000 := by
  unfold MeshNetworkManager.processMessageDelivery at h
  refine foldlM_option_inv (P := fun s => ∃ off carr,
      s = { st with offline := off, carried := carr } ∧
      ∀ c ∈ carr, c ∈ st.carried ∨ c.expiresAt = st.now + 604800000)
    _ st ⟨st.offline, st.carried, rfl, fun c hc => Or.inl hc⟩ ?_ st' h
  intro s' a _ hP s'' hstep
  obtain ⟨off, carr, rfl, hcarr⟩ := hP
  obtain ⟨off2, carr2, heq, _, hmem2, _, _⟩ := processOneMessage_spec hstep
  refine ⟨off2, carr2, heq, ?_⟩
  intro c hc
  rcases hmem2 c hc with h1 | h1
  · exact hcarr c h1
  · exact Or.inr h1

theorem foldl_deliver_spec (Q : CarriedMessage → Prop) :
    ∀ (L : List CarriedMessage) (acc : MeshState), (∀ c ∈ L, Q c) →
      ∃ carr ev,
        L.foldl (fun a c =>
          if isNearbyIn a.nearbyDevices c.recipientId then
            MeshNetworkManager.deliverCarriedMessage a c
          else a) acc =
          { acc with carried := carr,
                     deliveredEvents := acc.deliveredEvents ++ ev } ∧
        (∀ c ∈ carr, c ∈ acc.carried) ∧
        (∀ e ∈ ev, ∃ c, Q c ∧ e = MeshNetworkManager.offlineOfCarried c) := by
  intro L
  induction L with
  | nil =>
      intro acc _
      exact ⟨acc.carried, [], by simp, fun c hc => hc, by simp⟩
  | cons c0 L ih =>
      intro acc hQ
      rw [List.foldl_cons]
      by_cases hnear : isNearbyIn acc.nearbyDevices c0.recipientId = true
      · rw [if_pos hnear]
        obtain ⟨carr, ev, heq, hsub, hev⟩ :=
          ih (MeshNetworkManager.deliverCarriedMessage acc c0)
            (fun c hc => hQ c (List.mem_cons_of_mem c0 hc))
        refine ⟨carr, MeshNetworkManager.offlineOfCarried c0 :: ev, ?_, ?_, ?_⟩
        · rw [heq]
          unfold MeshNetworkManager.deliverCarriedMessage
          simp
        · intro c hc
          have := hsub c hc
          unfold MeshNetworkManager.deliverCarriedMessage at this
          dsimp only at this
          exact List.mem_of_mem_filter this
        · intro e he
          rcases List.mem_cons.1 he with h1 | h1
          · exact ⟨c0, hQ c0 (List.mem_cons_self c0 L), h1⟩
          · exact hev e h1
      · rw [if_neg hnear]
        exact ih acc (fun c hc => hQ c (List.mem_cons_of_mem c0 hc))

theorem processCarriedMessages_spec (st : MeshState) (Q : CarriedMessage → Prop)
    (hQ : ∀ c ∈ st.carried, Q c) :
    ∃ carr ev, MeshNetworkManager.processCarriedMessages st =
      { st with carried := carr, deliveredEvents := st.deliveredEvents ++ ev } ∧
      (∀ e ∈ ev, ∃ c, Q c ∧ e = MeshNetworkManager.offlineOfCarried c) := by
  obtain ⟨carr, ev, heq, _, hev⟩ := foldl_deliver_spec Q st.carried st hQ
  exact ⟨carr, ev, heq, hev⟩

theorem mem_cleanup_lt {now : Nat} {l : List CarriedMessage} {c : CarriedMessage}
    (h : c ∈ cleanupExpiredCarriedMessages now l) : now < c.expiresAt := by
  unfold cleanupExpiredCarriedMessages at h
  simpa using (List.mem_filter.1 h).2

theorem startPeriodicScan_shape (st : MeshState) :
    ∃ nd sh r, MeshNetworkManager.startPeriodicScan st =
      { st with nearbyDevices := nd, signalHistory := sh, rng := r,
                scanInterval := some st.nextTimerId,
                activeTimers := st.activeTimers ++ [st.nextTimerId],
                nextTimerId := st.nextTimerId + 1 } := by
  obtain ⟨nd, sh, r, h⟩ := scanForDevices_shape
    { st with scanInterval := some st.nextTimerId,
              activeTimers := st.activeTimers ++ [st.nextTimerId],
              nextTimerId := st.nextTimerId + 1 }
  refine ⟨nd, sh, r, ?_⟩
  unfold MeshNetworkManager.startPeriodicScan setIntervalTimer
  dsimp only
  rw [h]

theorem relayTick_spec {st st' : MeshState}
    (h : MeshNetworkManager.relayTick st = some st')
    (hQ : ∀ c ∈ st.carried, st.now < c.expiresAt) :
    ∃ off carr ev,
      st' = { st with offline := off, carried := carr,
                      deliveredEvents := st.deliveredEvents ++ ev } ∧
      ∀ e ∈ ev, ∃ c, st.now < c.expiresAt ∧
        e = MeshNetworkManager.offlineOfCarried c := by
  unfold MeshNetworkManager.relayTick at h
  cases hp : MeshNetworkManager.processMessageDelivery st with
  | none => rw [hp] at h; cases h
  | some s4 =>
      rw [hp] at h
      cases h
      obtain ⟨off, carr, rfl, hcarr⟩ := processMessageDelivery_spec hp
      have hQ4 : ∀ c ∈ carr, st.now < c.expiresAt := by
        intro c hc
        rcases hcarr c hc with h1 | h1
        · exact hQ c h1
        · omega
      obtain ⟨carr2, ev, heq, hev⟩ := processCarriedMessages_spec
        { st with offline := off, carried := carr }
        (fun c => st.now < c.expiresAt) hQ4
      rw [heq]
      exact ⟨off, carr2, ev, rfl, hev⟩

theorem start_spec {st st' : MeshState} (h : MeshNetworkManager.start st = some st') :
    ∃ nd sh r off carr ev,
      st' = { st with nearbyDevices := nd, signalHistory := sh, rng := r,
                      offline := off, carried := carr,
                      deliveredEvents := st.deliveredEvents ++ ev,
                      scanInterval := some st.nextTimerId,
                      relayInterval := some (st.nextTimerId + 1),
                      signalUpdateInterval := some (st.nextTimerId + 2),
                      activeTimers := st.activeTimers ++
                        [st.nextTimerId, st.nextTimerId + 1, st.nextTimerId + 2],
                      nextTimerId := st.nextTimerId + 3 } ∧
      ∀ e ∈ ev, ∃ c, st.now < c.expiresAt ∧
        e = MeshNetworkManager.offlineOfCarried c := by
  unfold MeshNetworkManager.start at h
  dsimp only at h
  obtain ⟨nd, sh, r, hps⟩ := startPeriodicScan_shape
    { st with carried := cleanupExpiredCarriedMessages st.now st.carried }
  rw [hps] at h
  unfold MeshNetworkManager.startRelayService setIntervalTimer at h
  dsimp only at h
  cases hrt : MeshNetworkManager.relayTick
      { st with carried := cleanupExpiredCarriedMessages st.now st.carried,
                nearbyDevices := nd, signalHistory := sh, rng := r,
                scanInterval := some st.nextTimerId,
                relayInterval := some (st.nextTimerId + 1),
                activeTimers := (st.activeTimers ++ [st.nextTimerId]) ++ [st.nextTimerId + 1],
                nextTimerId := st.nextTimerId + 1 + 1 } with
  | none => rw [hrt] at h; cases h
  | some s5 =>
      rw [hrt] at h
      cases h
      have hQ : ∀ c ∈ cleanupExpiredCarriedMessages st.now st.carried,
          st.now < c.expiresAt := fun c hc => mem_cleanup_lt hc
      obtain ⟨off, carr, ev, heq, hev⟩ := relayTick_spec hrt hQ
      subst heq
      refine ⟨nd, sh, r, off, carr, ev, ?_, hev⟩
      unfold MeshNetworkManager.startSignalTracking setIntervalTimer
      dsimp only
      simp only [MeshState.mk.injEq, List.append_assoc, List.singleton_append,
        List.cons_append, List.nil_append]

/-!
C1: expiry sweep and delivery of expired carried messages.
-/

/-- C1 counterexample: a relay tick run on a state holding an expired
carried entry (expiresAt 500, now 1000) whose recipient is in range
delivers that entry: the listeners are notified of it and it is removed
from the carried set by delivery, because the relay tick contains no
expiry sweep and processCarriedMessages never checks expiresAt. -/
theorem relay_tick_delivers_expired_entry :
    stExpired.carried.map (fun c => (c.id, c.expiresAt)) = [("m1", 500)] ∧
    stExpired.now = 1000 ∧
    (MeshNetworkManager.relayTick stExpired).map
        (fun s => (s.deliveredEvents.map (fun e => e.id), s.carried)) =
      some (["m1"], []) :=
  ⟨rfl, rfl, rfl⟩

/-- C1 amended: the expiry sweep runs once inside start, before the
scan and the initial relay pass, not once per relay tick; an entry
already expired at start time is removed by that sweep, and every event
delivered during the start call stems from an entry whose expiry is
still in the future.  An entry expiring while the service runs can
still be delivered by a later relay tick. -/
theorem expired_entry_swept_at_start_not_delivered :
    ∀ (st : MeshState) (m : CarriedMessage), m ∈ st.carried → m.expiresAt ≤ st.now →
      m ∉ cleanupExpiredCarriedMessages st.now st.carried ∧
      ∀ st', MeshNetworkManager.start st = some st' →
        ∀ e ∈ st'.deliveredEvents, e ∈ st.deliveredEvents ∨
          ∃ c, st.now < c.expiresAt ∧ e = MeshNetworkManager.offlineOfCarried c := by
  intro st m hm hexp
  constructor
  · intro hmem
    exact absurd (mem_cleanup_lt hmem) (by omega)
  · intro st' h e he
    obtain ⟨nd, sh, r, off, carr, ev, rfl, hev⟩ := start_spec h
    rcases List.mem_append.1 he with h1 | h1
    · exact Or.inl h1
    · exact Or.inr (hev e h1)

/-- Witness for C1 amended: the concrete expired entry is gone after
the sweep of its state. -/
theorem expired_entry_swept_at_start_not_delivered_witness :
    cmExpired ∉ cleanupExpiredCarriedMessages stExpired.now stExpired.carried :=
  (expired_entry_swept_at_start_not_delivered stExpired cmExpired
    (by decide) (by decide)).1

/-!
C9: idempotence of start.
-/

/-- C9 counterexample: start is not idempotent; running start a second
time on the state produced by a first start does not return that state
unchanged (three further timers are scheduled), so a second call while
running is not a no-op. -/
theorem second_start_not_noop :
    (MeshNetworkManager.start baseState).bind MeshNetworkManager.start ≠
      MeshNetworkManager.start baseState := by
  decide

/-- C9 amended: every start call, also one issued while the manager is
already running, schedules three fresh periodic tasks (scan, relay,
signal tracking) and overwrites the three stored interval handles,
leaving the previously scheduled timers active and orphaned. -/
theorem start_always_schedules_three_new_tasks :
    ∀ st st', MeshNetworkManager.start st = some st' →
      st'.activeTimers = st.activeTimers ++
        [st.nextTimerId, st.nextTimerId + 1, st.nextTimerId + 2] ∧
      st'.scanInterval = some st.nextTimerId ∧
      st'.relayInterval = some (st.nextTimerId + 1) ∧
      st'.signalUpdateInterval = some (st.nextTimerId + 2) ∧
      st'.nextTimerId = st.nextTimerId + 3 := by
  intro st st' h
  obtain ⟨nd, sh, r, off, carr, ev, rfl, _⟩ := start_spec h
  exact ⟨rfl, rfl, rfl, rfl, rfl⟩

/-- Witness for C9 amended at the concrete base state. -/
theorem start_always_schedules_three_new_tasks_witness :
    ((MeshNetworkManager.start baseState).getD baseState).activeTimers =
      baseState.activeTimers ++
        [baseState.nextTimerId, baseState.nextTimerId + 1, baseState.nextTimerId + 2] ∧
    ((MeshNetworkManager.start baseState).getD baseState).scanInterval =
      some baseState.nextTimerId ∧
    ((MeshNetworkManager.start baseState).getD baseState).relayInterval =
      some (baseState.nextTimerId + 1) ∧
    ((MeshNetworkManager.start baseState).getD baseState).signalUpdateInterval =
      some (baseState.nextTimerId + 2) ∧
    ((MeshNetworkManager.start baseState).getD baseState).nextTimerId =
      baseState.nextTimerId + 3 :=
  start_always_schedules_three_new_tasks baseState
    ((MeshNetworkManager.start baseState).getD baseState) (by rfl)

theorem addCarriedMessage_has_id (bt : String) (carried : List CarriedMessage)
    (m : CarriedMessage) : ∃ c ∈ addCarriedMessage bt carried m, c.id = m.id := by
  unfold addCarriedMessage
  split
  · rename_i hany
    obtain ⟨c, hc, hcid⟩ := List.any_eq_true.1 hany
    exact ⟨c, hc, by simpa using hcid⟩
  · exact ⟨_, List.mem_append_right _ (List.mem_singleton_self _), rfl⟩

/-- C2 amended: while the relay pass finds no eligible carrier for a
pending authored message whose recipient is out of range, it leaves the
message unsynced and creates no carried entry for its id; when carriers
exist the one chosen is the first in-range peer in enumeration order of
the peer table that is neither the sender nor the recipient; however
sendMessage itself already queues a CarriedMessage for the fresh id in
the own carried set at send time, with or without any carrier in
range. -/
theorem pending_without_carrier_and_first_match :
    (∀ (st : MeshState) (m : OfflineMessage),
        (st.offline.map (fun o => o.id)).Nodup →
        m ∈ st.offline → m.senderId = st.userId → m.synced = false →
        isNearbyIn st.nearbyDevices m.recipientId = false →
        MeshNetworkManager.chooseCarrier st m = none →
        ∀ st', MeshNetworkManager.processMessageDelivery st = some st' →
          m ∈ st'.offline ∧
          (∀ o ∈ st'.offline, o.id = m.id → o = m) ∧
          st'.carried.filter (fun c => c.id = m.id) =
            st.carried.filter (fun c => c.id = m.id)) ∧
    (∀ (st : MeshState) (m : OfflineMessage),
        MeshNetworkManager.chooseCarrier st m =
          st.nearbyDevices.find? (fun d =>
            d.isNearby && d.userId ≠ st.userId && d.userId ≠ m.recipientId)) ∧
    (∀ (st : MeshState) (r : String) (ct : List Nat) (cv mid : String)
        (st' : MeshState) (x : String),
        isNearbyIn st.nearbyDevices r = false →
        MeshNetworkManager.sendMessage st r ct cv mid = some (st', x) →
        (∃ c ∈ st'.carried, c.id = mid) ∧
        ({ id := mid, conversationId := cv, senderId := st.userId, recipientId := r,
           content := ct, createdAt := st.now, synced := false } : OfflineMessage)
          ∈ st'.offline) := by
  refine ⟨?_, ?_, ?_⟩
  · intro st m hnd hm hsend hsync hrange hcar st' h
    have huniq0 : ∀ o ∈ st.offline, o.id = m.id → o = m :=
      fun o ho hid => List.inj_on_of_nodup_map hnd ho hm hid
    unfold MeshNetworkManager.processMessageDelivery at h
    have key := foldlM_option_inv (P := fun s =>
        m ∈ s.offline ∧ (∀ o ∈ s.offline, o.id = m.id → o = m) ∧
        s.carried.filter (fun c => c.id = m.id) =
          st.carried.filter (fun c => c.id = m.id) ∧
        s.nearbyDevices = st.nearbyDevices ∧ s.userId = st.userId)
      (st.offline.filter (fun o => o.senderId = st.userId && !o.synced)) st
      ⟨hm, huniq0, rfl, rfl, rfl⟩ ?_ st' h
    · exact ⟨key.1, key.2.1, key.2.2.1⟩
    · intro s' a haL hP s'' hstep
      obtain ⟨hmem, huniq, hfilter, hnd', huid⟩ := hP
      have haOff : a ∈ st.offline := List.mem_of_mem_filter haL
      by_cases hid : a.id = m.id
      · have haa : a = m := huniq0 a haOff hid
        subst haa
        have hnear' : isNearbyIn s'.nearbyDevices a.recipientId = false := by
          rw [hnd']; exact hrange
        have hcc : MeshNetworkManager.chooseCarrier s' a = none := by
          unfold MeshNetworkManager.chooseCarrier at hcar ⊢
          rw [hnd', huid]
          exact hcar
        obtain ⟨off2, carr2, _, _, _, _, hnoop⟩ := processOneMessage_spec hstep
        have hss : s'' = s' := hnoop hnear' hcc
        subst hss
        exact ⟨hmem, huniq, hfilter, hnd', huid⟩
      · obtain ⟨off2, carr2, rfl, hoff2, _, hfilter2, _⟩ := processOneMessage_spec hstep
        have hidm : m.id ≠ a.id := fun hh => hid hh.symm
        refine ⟨?_, ?_, ?_, hnd', huid⟩
        · rcases hoff2 with h1 | ⟨_, h1⟩ <;> subst h1
          · exact hmem
          · exact mem_markMessageSynced_of_ne hmem hidm
        · rcases hoff2 with h1 | ⟨_, h1⟩ <;> subst h1
          · exact huniq
          · exact markMessageSynced_preserves_uniq hidm huniq
        · exact (hfilter2 m.id hid).trans hfilter
  · intro st m
    unfold MeshNetworkManager.chooseCarrier
    exact head?_filter_eq_find? _ _
  · intro st r ct cv mid st' x hrange h
    unfold MeshNetworkManager.sendMessage at h
    split at h
    · cases h
    · dsimp only at h
      split at h
      · rename_i hnear
        rw [hrange] at hnear
        cases hnear
      · cases h
        constructor
        · exact addCarriedMessage_has_id _ _ _
        · exact List.mem_append_right _ (List.mem_singleton_self _)

/-- Witness for C2 amended: the concrete pending message stays in the
store after the relay pass and the carrier choice agrees with the first
match on the peer table. -/
theorem pending_without_carrier_and_first_match_witness :
    msgOld ∈ ((MeshNetworkManager.processMessageDelivery stPend).getD stPend).offline ∧
    MeshNetworkManager.chooseCarrier stPend msgOld =
      stPend.nearbyDevices.find? (fun d =>
        d.isNearby && d.userId ≠ stPend.userId && d.userId ≠ msgOld.recipientId) := by
  constructor
  · exact (pending_without_carrier_and_first_match.1 stPend msgOld
      (by decide) (by decide) (by decide) (by decide) (by decide) (by decide)
      ((MeshNetworkManager.processMessageDelivery stPend).getD stPend) (by rfl)).1
  · exact pending_without_carrier_and_first_match.2.1 stPend msgOld

/-!
C6 groundwork: the XOR stage.
-/

theorem keyCode_lt (i : Nat) : xorKeyCodes.getD (i % xorKeyCodes.length) 0 < 128 := by
  have hlt : i % xorKeyCodes.length < 24 := by
    have : xorKeyCodes.length = 24 := rfl
    rw [this]
    exact Nat.mod_lt _ (by decide)
  have hall : ∀ j : Fin 24, xorKeyCodes.getD j.1 0 < 128 := by decide
  exact hall ⟨i % xorKeyCodes.length, hlt⟩

theorem xor_xor_cancel (c k : Nat) : Nat.xor (Nat.xor c k) k = c := by
  show c ^^^ k ^^^ k = c
  rw [Nat.xor_assoc, Nat.xor_self, Nat.xor_zero]

theorem xorWithKeyAux_involutive : ∀ (l : List Nat) (i : Nat),
    xorWithKeyAux i (xorWithKeyAux i l) = l := by
  intro l
  induction l with
  | nil => intro i; rfl
  | cons c cs ih =>
      intro i
      simp only [xorWithKeyAux, xor_xor_cancel]
      rw [ih]

theorem xor_div_1024_eq (u k : Nat) (hk : k < 1024) :
    Nat.xor u k / 1024 = u / 1024 := by
  show (u ^^^ k) / 1024 = u / 1024
  have h2 : (1024 : Nat) = 2 ^ 10 := by norm_num
  rw [h2, ← Nat.shiftRight_eq_div_pow, ← Nat.shiftRight_eq_div_pow]
  apply Nat.eq_of_testBit_eq
  intro j
  rw [Nat.testBit_shiftRight, Nat.testBit_shiftRight, Nat.testBit_xor]
  have hkbit : k.testBit (10 + j) = false :=
    Nat.testBit_lt_two_pow (lt_of_lt_of_le (h2 ▸ hk)
      (Nat.pow_le_pow_right (by norm_num) (Nat.le_add_right 10 j)))
  rw [hkbit, Bool.xor_false]

theorem isHighSurrogate_xor_iff (u k : Nat) (hk : k < 1024) :
    isHighSurrogate (Nat.xor u k) = true ↔ isHighSurrogate u = true := by
  have h := xor_div_1024_eq u k hk
  simp only [isHighSurrogate, Bool.and_eq_true, decide_eq_true_eq]
  omega

theorem isLowSurrogate_xor_iff (u k : Nat) (hk : k < 1024) :
    isLowSurrogate (Nat.xor u k) = true ↔ isLowSurrogate u = true := by
  have h := xor_div_1024_eq u k hk
  simp only [isLowSurrogate, Bool.and_eq_true, decide_eq_true_eq]
  omega

theorem xor_lt_65536 {u k : Nat} (hu : u < 65536) (hk : k < 128) :
    Nat.xor u k < 65536 := by
  have h16 : (65536 : Nat) = 2 ^ 16 := by norm_num
  rw [h16]
  exact Nat.xor_lt_two_pow (h16 ▸ hu) (by omega)

theorem wf_xorWithKeyAux : ∀ (n : Nat) (l : List Nat), l.length ≤ n → ∀ i,
    wellFormedUtf16 l = true → wellFormedUtf16 (xorWithKeyAux i l) = true := by
  intro n
  induction n with
  | zero =>
      intro l hl i h
      have : l = [] := List.eq_nil_of_length_eq_zero (Nat.le_zero.1 hl)
      subst this
      exact h
  | succ n ih =>
      intro l hl i h
      cases l with
      | nil => exact h
      | cons u rest =>
          have hk : xorKeyCodes.getD (i % xorKeyCodes.length) 0 < 128 := keyCode_lt i
          by_cases hhs : isHighSurrogate u = true
          · unfold wellFormedUtf16 at h
            rw [if_pos hhs] at h
            cases rest with
            | nil => dsimp only at h; cases h
            | cons v rest2 =>
                dsimp only at h
                have hk1 : xorKeyCodes.getD ((i + 1) % xorKeyCodes.length) 0 < 128 :=
                  keyCode_lt (i + 1)
                rw [Bool.and_eq_true] at h
                obtain ⟨hlv, hwf2⟩ := h
                show wellFormedUtf16 (Nat.xor u _ :: Nat.xor v _ :: xorWithKeyAux (i + 2) rest2) = true
                unfold wellFormedUtf16
                rw [if_pos ((isHighSurrogate_xor_iff u _ (by omega)).2 hhs)]
                dsimp only
                rw [Bool.and_eq_true]
                constructor
                · exact (isLowSurrogate_xor_iff v _ (by omega)).2 hlv
                · have hlen : rest2.length ≤ n := by
                    simp only [List.length_cons] at hl
                    omega
                  exact ih rest2 hlen (i + 2) hwf2
          · unfold wellFormedUtf16 at h
            rw [if_neg hhs] at h
            simp only [Bool.and_eq_true, Bool.not_eq_true', decide_eq_true_eq] at h
            obtain ⟨⟨hlo, hlt⟩, hwf⟩ := h
            show wellFormedUtf16 (Nat.xor u _ :: xorWithKeyAux (i + 1) rest) = true
            unfold wellFormedUtf16
            have hhs2 : ¬ isHighSurrogate (Nat.xor u (xorKeyCodes.getD (i % xorKeyCodes.length) 0)) = true :=
              fun habs => hhs ((isHighSurrogate_xor_iff u _ (by omega)).1 habs)
            rw [if_neg hhs2]
            simp only [Bool.and_eq_true, Bool.not_eq_true', decide_eq_true_eq]
            refine ⟨⟨?_, xor_lt_65536 hlt (by omega)⟩, ?_⟩
            · rcases hbool : isLowSurrogate (Nat.xor u (xorKeyCodes.getD (i % xorKeyCodes.length) 0)) with _ | _
              · rfl
              · exact absurd ((isLowSurrogate_xor_iff u _ (by omega)).1 hbool) (by rw [hlo]; simp)
            · have hlen : rest.length ≤ n := by
                simp only [List.length_cons] at hl
                omega
              exact ih rest hlen (i + 1) hwf

/-!
C6 groundwork: the base64 stage.
-/

theorem base64Decode_cons4 (c0 c1 c2 c3 : Nat) (rest : List Nat) :
    base64Decode (c0 :: c1 :: c2 :: c3 :: rest) =
      if c2 = 61 && c3 = 61 && rest.isEmpty then
        (base64DecodeChar c0).bind (fun s0 =>
          (base64DecodeChar c1).map (fun s1 => [s0 * 4 + s1 / 16]))
      else if c3 = 61 && rest.isEmpty then
        (base64DecodeChar c0).bind (fun s0 =>
          (base64DecodeChar c1).bind (fun s1 =>
            (base64DecodeChar c2).map (fun s2 =>
              [s0 * 4 + s1 / 16, s1 % 16 * 16 + s2 / 4])))
      else
        (base64DecodeChar c0).bind (fun s0 =>
          (base64DecodeChar c1).bind (fun s1 =>
            (base64DecodeChar c2).bind (fun s2 =>
              (base64DecodeChar c3).bind (fun s3 =>
                (base64Decode rest).map (fun bs =>
                  (s0 * 4 + s1 / 16) :: (s1 % 16 * 16 + s2 / 4) ::
                  (s2 % 4 * 64 + s3) :: bs))))) := rfl

theorem base64DecodeChar_base64Char {s : Nat} (h : s < 64) :
    base64DecodeChar (base64Char s) = some s ∧ base64Char s ≠ 61 := by
  have hall : ∀ t : Fin 64,
      base64DecodeChar (base64Char t.1) = some t.1 ∧ base64Char t.1 ≠ 61 := by decide
  exact hall ⟨s, h⟩

theorem base64_roundtrip : ∀ (n : Nat) (bs : List Nat), bs.length ≤ n →
    (∀ b ∈ bs, b < 256) → base64Decode (base64Encode bs) = some bs := by
  intro n
  induction n with
  | zero =>
      intro bs hl _
      have : bs = [] := List.eq_nil_of_length_eq_zero (Nat.le_zero.1 hl)
      subst this
      rfl
  | succ n ih =>
      intro bs hl hb
      match bs with
      | [] => rfl
      | [b0] =>
          have hb0 : b0 < 256 := hb b0 (by simp)
          obtain ⟨hd0, _⟩ := base64DecodeChar_base64Char (show b0 / 4 < 64 by omega)
          obtain ⟨hd1, _⟩ := base64DecodeChar_base64Char (show b0 % 4 * 16 < 64 by omega)
          show base64Decode [base64Char (b0 / 4), base64Char (b0 % 4 * 16), 61, 61] = some [b0]
          rw [base64Decode_cons4]
          rw [if_pos (by simp)]
          rw [hd0, hd1]
          simp only [Option.some_bind, Option.map_some']
          congr 2
          omega
      | [b0, b1] =>
          have hb0 : b0 < 256 := hb b0 (by simp)
          have hb1 : b1 < 256 := hb b1 (by simp)
          obtain ⟨hd0, _⟩ := base64DecodeChar_base64Char (show b0 / 4 < 64 by omega)
          obtain ⟨hd1, _⟩ := base64DecodeChar_base64Char
            (show b0 % 4 * 16 + b1 / 16 < 64 by omega)
          obtain ⟨hd2, hne2⟩ := base64DecodeChar_base64Char (show b1 % 16 * 4 < 64 by omega)
          show base64Decode [base64Char (b0 / 4), base64Char (b0 % 4 * 16 + b1 / 16),
            base64Char (b1 % 16 * 4), 61] = some [b0, b1]
          rw [base64Decode_cons4]
          rw [if_neg (by simp [hne2])]
          rw [if_pos (by simp)]
          rw [hd0, hd1, hd2]
          simp only [Option.some_bind, Option.map_some']
          have e0 : b0 / 4 * 4 + (b0 % 4 * 16 + b1 / 16) / 16 = b0 := by omega
          have e1 : (b0 % 4 * 16 + b1 / 16) % 16 * 16 + b1 % 16 * 4 / 4 = b1 := by omega
          rw [e0, e1]
      | b0 :: b1 :: b2 :: rest =>
          have hb0 : b0 < 256 := hb b0 (by simp)
          have hb1 : b1 < 256 := hb b1 (by simp)
          have hb2 : b2 < 256 := hb b2 (by simp)
          obtain ⟨hd0, _⟩ := base64DecodeChar_base64Char (show b0 / 4 < 64 by omega)
          obtain ⟨hd1, _⟩ := base64DecodeChar_base64Char
            (show b0 % 4 * 16 + b1 / 16 < 64 by omega)
          obtain ⟨hd2, hne2⟩ := base64DecodeChar_base64Char
            (show b1 % 16 * 4 + b2 / 64 < 64 by omega)
          obtain ⟨hd3, hne3⟩ := base64DecodeChar_base64Char (show b2 % 64 < 64 by omega)
          have hrest : base64Decode (base64Encode rest) = some rest := by
            refine ih rest ?_ (fun b hmem => hb b (by simp [hmem]))
            simp only [List.length_cons] at hl
            omega
          show base64Decode (base64Char (b0 / 4) :: base64Char (b0 % 4 * 16 + b1 / 16) ::
            base64Char (b1 % 16 * 4 + b2 / 64) :: base64Char (b2 % 64) ::
            base64Encode rest) = some (b0 :: b1 :: b2 :: rest)
          rw [base64Decode_cons4]
          rw [if_neg (by simp [hne2])]
          rw [if_neg (by simp [hne3])]
          rw [hd0, hd1, hd2, hd3]
          simp only [Option.some_bind]
          rw [hrest]
          simp only [Option.map_some']
          have e0 : b0 / 4 * 4 + (b0 % 4 * 16 + b1 / 16) / 16 = b0 := by omega
          have e1 : (b0 % 4 * 16 + b1 / 16) % 16 * 16 + (b1 % 16 * 4 + b2 / 64) / 4 = b1 := by
            omega
          have e2 : (b1 % 16 * 4 + b2 / 64) % 4 * 64 + b2 % 64 = b2 := by omega
          rw [e0, e1, e2]

/-!
C6 groundwork: branch equations of the UTF-8 stage.
-/

theorem utf8EncodeUnits_eq1 {u : Nat} (rest : List Nat) (h : u < 128) :
    utf8EncodeUnits (u :: rest) = (utf8EncodeUnits rest).map (fun bs => u :: bs) := by
  rw [utf8EncodeUnits.eq_def]
  dsimp only
  rw [if_pos h]

theorem utf8EncodeUnits_eq2 {u : Nat} (rest : List Nat) (h0 : ¬ u < 128) (h1 : u < 2048) :
    utf8EncodeUnits (u :: rest) =
      (utf8EncodeUnits rest).map (fun bs => (192 + u / 64) :: (128 + u % 64) :: bs) := by
  rw [utf8EncodeUnits.eq_def]
  dsimp only
  rw [if_neg h0, if_pos h1]

theorem utf8EncodeUnits_eqPair {u : Nat} (v : Nat) (rest2 : List Nat)
    (h0 : ¬ u < 128) (h1 : ¬ u < 2048) (h2 : isHighSurrogate u = true) :
    utf8EncodeUnits (u :: v :: rest2) =
      if isLowSurrogate v then
        (utf8EncodeUnits rest2).map (fun bs =>
          (240 + (65536 + (u - 55296) * 1024 + (v - 56320)) / 262144) ::
          (128 + (65536 + (u - 55296) * 1024 + (v - 56320)) / 4096 % 64) ::
          (128 + (65536 + (u - 55296) * 1024 + (v - 56320)) / 64 % 64) ::
          (128 + (65536 + (u - 55296) * 1024 + (v - 56320)) % 64) :: bs)
      else none := by
  rw [utf8EncodeUnits.eq_def]
  dsimp only
  rw [if_neg h0, if_neg h1, if_pos h2]

theorem utf8EncodeUnits_eq3 {u : Nat} (rest : List Nat)
    (h0 : ¬ u < 128) (h1 : ¬ u < 2048) (h2 : ¬ isHighSurrogate u = true)
    (h3 : ¬ isLowSurrogate u = true) (h4 : u < 65536) :
    utf8EncodeUnits (u :: rest) =
      (utf8EncodeUnits rest).map (fun bs =>
        (224 + u / 4096) :: (128 + u / 64 % 64) :: (128 + u % 64) :: bs) := by
  rw [utf8EncodeUnits.eq_def]
  dsimp only
  rw [if_neg h0, if_neg h1, if_neg h2, if_neg h3, if_pos h4]

theorem utf8DecodeBytes_eq1 {b : Nat} (bs : List Nat) (h : b < 128) :
    utf8DecodeBytes (b :: bs) = (utf8DecodeBytes bs).map (fun us => b :: us) := by
  rw [utf8DecodeBytes.eq_def]
  dsimp only
  rw [if_pos h]

theorem utf8DecodeBytes_eq2 {b : Nat} (bs : List Nat)
    (h0 : ¬ b < 128) (h1 : 192 ≤ b ∧ b < 224) :
    utf8DecodeBytes (b :: bs) =
      if 1 ≤ bs.length ∧ isContinuationByte (bs.getD 0 0) = true ∧
          128 ≤ (b - 192) * 64 + (bs.getD 0 0 - 128) then
        (utf8DecodeBytes (bs.drop 1)).map (fun us =>
          ((b - 192) * 64 + (bs.getD 0 0 - 128)) :: us)
      else none := by
  rw [utf8DecodeBytes.eq_def]
  dsimp only
  rw [if_neg h0, if_pos h1]

theorem utf8DecodeBytes_eq3 {b : Nat} (bs : List Nat)
    (h0 : ¬ b < 128) (h1 : ¬ (192 ≤ b ∧ b < 224)) (h2 : 224 ≤ b ∧ b < 240) :
    utf8DecodeBytes (b :: bs) =
      if 2 ≤ bs.length ∧ isContinuationByte (bs.getD 0 0) = true ∧
          isContinuationByte (bs.getD 1 0) = true ∧
          2048 ≤ (b - 224) * 4096 + (bs.getD 0 0 - 128) * 64 + (bs.getD 1 0 - 128) ∧
          (isHighSurrogate ((b - 224) * 4096 + (bs.getD 0 0 - 128) * 64 + (bs.getD 1 0 - 128)) ||
           isLowSurrogate ((b - 224) * 4096 + (bs.getD 0 0 - 128) * 64 + (bs.getD 1 0 - 128))) = false then
        (utf8DecodeBytes (bs.drop 2)).map (fun us =>
          ((b - 224) * 4096 + (bs.getD 0 0 - 128) * 64 + (bs.getD 1 0 - 128)) :: us)
      else none := by
  rw [utf8DecodeBytes.eq_def]
  dsimp only
  rw [if_neg h0, if_neg h1, if_pos h2]

theorem utf8DecodeBytes_eq4 {b : Nat} (bs : List Nat)
    (h0 : ¬ b < 128) (h1 : ¬ (192 ≤ b ∧ b < 224)) (h2 : ¬ (224 ≤ b ∧ b < 240))
    (h3 : 240 ≤ b ∧ b < 248) :
    utf8DecodeBytes (b :: bs) =
      if 3 ≤ bs.length ∧ isContinuationByte (bs.getD 0 0) = true ∧
          isContinuationByte (bs.getD 1 0) = true ∧
          isContinuationByte (bs.getD 2 0) = true ∧
          65536 ≤ (b - 240) * 262144 + (bs.getD 0 0 - 128) * 4096 +
            (bs.getD 1 0 - 128) * 64 + (bs.getD 2 0 - 128) ∧
          (b - 240) * 262144 + (bs.getD 0 0 - 128) * 4096 +
            (bs.getD 1 0 - 128) * 64 + (bs.getD 2 0 - 128) < 1114112 then
        (utf8DecodeBytes (bs.drop 3)).map (fun us =>
          (55296 + ((b - 240) * 262144 + (bs.getD 0 0 - 128) * 4096 +
            (bs.getD 1 0 - 128) * 64 + (bs.getD 2 0 - 128) - 65536) / 1024) ::
          (56320 + ((b - 240) * 262144 + (bs.getD 0 0 - 128) * 4096 +
            (bs.getD 1 0 - 128) * 64 + (bs.getD 2 0 - 128) - 65536) % 1024) :: us)
      else none := by
  rw [utf8DecodeBytes.eq_def]
  dsimp only
  rw [if_neg h0, if_neg h1, if_neg h2, if_pos h3]

theorem utf8DecodeBytes_nil : utf8DecodeBytes [] = some [] := by
  rw [utf8DecodeBytes.eq_def]

theorem utf8_pair_bytes_lt (cp : Nat) (h : 65536 ≤ cp ∧ cp < 1114112) :
    240 + cp / 262144 < 256 ∧ 128 + cp / 4096 % 64 < 256 ∧
    128 + cp / 64 % 64 < 256 ∧ 128 + cp % 64 < 256 := by
  omega

theorem utf8_pair_decode (cp : Nat) (hcp : 65536 ≤ cp ∧ cp < 1114112)
    (bs2 l2 : List Nat) (hdec2 : utf8DecodeBytes bs2 = some l2) :
    utf8DecodeBytes ((240 + cp / 262144) :: (128 + cp / 4096 % 64) ::
        (128 + cp / 64 % 64) :: (128 + cp % 64) :: bs2) =
      some ((55296 + (cp - 65536) / 1024) :: (56320 + (cp - 65536) % 1024) :: l2) := by
  have e0 : ((128 + cp / 4096 % 64) :: (128 + cp / 64 % 64) ::
      (128 + cp % 64) :: bs2).getD 0 0 = 128 + cp / 4096 % 64 := rfl
  have e1 : ((128 + cp / 4096 % 64) :: (128 + cp / 64 % 64) ::
      (128 + cp % 64) :: bs2).getD 1 0 = 128 + cp / 64 % 64 := rfl
  have e2 : ((128 + cp / 4096 % 64) :: (128 + cp / 64 % 64) ::
      (128 + cp % 64) :: bs2).getD 2 0 = 128 + cp % 64 := rfl
  have e3 : ((128 + cp / 4096 % 64) :: (128 + cp / 64 % 64) ::
      (128 + cp % 64) :: bs2).drop 3 = bs2 := rfl
  rw [utf8DecodeBytes_eq4 _ (by omega) (by omega) (by omega) (by omega)]
  rw [e0, e1, e2, e3]
  have ecp : (240 + cp / 262144 - 240) * 262144 + (128 + cp / 4096 % 64 - 128) * 4096 +
      (128 + cp / 64 % 64 - 128) * 64 + (128 + cp % 64 - 128) = cp := by
    omega
  rw [ecp]
  rw [if_pos ?hcond]
  case hcond =>
    refine ⟨by simp only [List.length_cons]; omega, ?_, ?_, ?_, by omega, by omega⟩
    · simp only [isContinuationByte, Bool.and_eq_true, decide_eq_true_eq]
      omega
    · simp only [isContinuationByte, Bool.and_eq_true, decide_eq_true_eq]
      omega
    · simp only [isContinuationByte, Bool.and_eq_true, decide_eq_true_eq]
      omega
  rw [hdec2]
  rfl

theorem utf8_encode_decode : ∀ (n : Nat) (l : List Nat), l.length ≤ n →
    wellFormedUtf16 l = true →
    ∃ bs, utf8EncodeUnits l = some bs ∧ (∀ b ∈ bs, b < 256) ∧
      utf8DecodeBytes bs = some l := by
  intro n
  induction n with
  | zero =>
      intro l hl _
      have : l = [] := List.eq_nil_of_length_eq_zero (Nat.le_zero.1 hl)
      subst this
      exact ⟨[], rfl, by simp, utf8DecodeBytes_nil⟩
  | succ n ih =>
      intro l hl hwf
      cases l with
      | nil => exact ⟨[], rfl, by simp, utf8DecodeBytes_nil⟩
      | cons u rest =>
          by_cases hhs : isHighSurrogate u = true
          · unfold wellFormedUtf16 at hwf
            rw [if_pos hhs] at hwf
            cases rest with
            | nil => dsimp only at hwf; cases hwf
            | cons v rest2 =>
                dsimp only at hwf
                rw [Bool.and_eq_true] at hwf
                obtain ⟨hlv, hwf2⟩ := hwf
                have hu : 55296 ≤ u ∧ u < 56320 := by
                  simpa [isHighSurrogate] using hhs
                have hv : 56320 ≤ v ∧ v < 57344 := by
                  simpa [isLowSurrogate] using hlv
                obtain ⟨bs2, henc2, hb2, hdec2⟩ := ih rest2
                  (by simp only [List.length_cons] at hl; omega) hwf2
                have hcpb : 65536 ≤ 65536 + (u - 55296) * 1024 + (v - 56320) ∧
                    65536 + (u - 55296) * 1024 + (v - 56320) < 1114112 := by omega
                have henc : utf8EncodeUnits (u :: v :: rest2) = some (
                    (240 + (65536 + (u - 55296) * 1024 + (v - 56320)) / 262144) ::
                    (128 + (65536 + (u - 55296) * 1024 + (v - 56320)) / 4096 % 64) ::
                    (128 + (65536 + (u - 55296) * 1024 + (v - 56320)) / 64 % 64) ::
                    (128 + (65536 + (u - 55296) * 1024 + (v - 56320)) % 64) :: bs2) := by
                  rw [utf8EncodeUnits_eqPair v rest2 (by omega) (by omega) hhs,
                    if_pos hlv, henc2]
                  rfl
                refine ⟨_, henc, ?_, ?_⟩
                · intro b hbmem
                  obtain ⟨l1, l2, l3, l4⟩ := utf8_pair_bytes_lt _ hcpb
                  simp only [List.mem_cons] at hbmem
                  rcases hbmem with h | h | h | h | hbmem
                  · rw [h]; exact l1
                  · rw [h]; exact l2
                  · rw [h]; exact l3
                  · rw [h]; exact l4
                  · exact hb2 b hbmem
                · rw [utf8_pair_decode _ hcpb bs2 rest2 hdec2]
                  have h1 : 55296 + (65536 + (u - 55296) * 1024 + (v - 56320) - 65536) / 1024
                      = u := by omega
                  have h2 : 56320 + (65536 + (u - 55296) * 1024 + (v - 56320) - 65536) % 1024
                      = v := by omega
                  rw [h1, h2]
          · unfold wellFormedUtf16 at hwf
            rw [if_neg hhs] at hwf
            simp only [Bool.and_eq_true, Bool.not_eq_true', decide_eq_true_eq] at hwf
            obtain ⟨⟨hlo, hlt⟩, hwfrest⟩ := hwf
            obtain ⟨bs2, henc2, hb2, hdec2⟩ := ih rest
              (by simp only [List.length_cons] at hl; omega) hwfrest
            by_cases h128 : u < 128
            · refine ⟨u :: bs2, ?_, ?_, ?_⟩
              · rw [utf8EncodeUnits_eq1 rest h128, henc2]
                rfl
              · intro b hbmem
                rcases List.mem_cons.1 hbmem with rfl | hbmem
                · omega
                · exact hb2 b hbmem
              · rw [utf8DecodeBytes_eq1 bs2 h128, hdec2]
                rfl
            · by_cases h2048 : u < 2048
              · refine ⟨(192 + u / 64) :: (128 + u % 64) :: bs2, ?_, ?_, ?_⟩
                · rw [utf8EncodeUnits_eq2 rest h128 h2048, henc2]
                  rfl
                · intro b hbmem
                  simp only [List.mem_cons] at hbmem
                  rcases hbmem with rfl | rfl | hbmem
                  · omega
                  · omega
                  · exact hb2 b hbmem
                · have e0 : ((128 + u % 64) :: bs2).getD 0 0 = 128 + u % 64 := rfl
                  have e3 : ((128 + u % 64) :: bs2).drop 1 = bs2 := rfl
                  rw [utf8DecodeBytes_eq2 _ (by omega) (by omega)]
                  rw [e0, e3]
                  have eu : (192 + u / 64 - 192) * 64 + (128 + u % 64 - 128) = u := by omega
                  rw [eu]
                  rw [if_pos ?hcond2]
                  case hcond2 =>
                    refine ⟨by simp only [List.length_cons]; omega, ?_, by omega⟩
                    simp only [isContinuationByte, Bool.and_eq_true, decide_eq_true_eq]
                    omega
                  rw [hdec2]
                  rfl
              · have hhsf : isHighSurrogate u = false := Bool.eq_false_iff.mpr hhs
                refine ⟨(224 + u / 4096) :: (128 + u / 64 % 64) :: (128 + u % 64) :: bs2,
                  ?_, ?_, ?_⟩
                · rw [utf8EncodeUnits_eq3 rest h128 h2048 hhs (by simp [hlo]) hlt, henc2]
                  rfl
                · intro b hbmem
                  simp only [List.mem_cons] at hbmem
                  rcases hbmem with rfl | rfl | rfl | hbmem
                  · omega
                  · omega
                  · omega
                  · exact hb2 b hbmem
                · have e0 : ((128 + u / 64 % 64) :: (128 + u % 64) :: bs2).getD 0 0 =
                      128 + u / 64 % 64 := rfl
                  have e1 : ((128 + u / 64 % 64) :: (128 + u % 64) :: bs2).getD 1 0 =
                      128 + u % 64 := rfl
                  have e3 : ((128 + u / 64 % 64) :: (128 + u % 64) :: bs2).drop 2 = bs2 := rfl
                  rw [utf8DecodeBytes_eq3 _ (by omega) (by omega) (by omega)]
                  rw [e0, e1, e3]
                  have eu : (224 + u / 4096 - 224) * 4096 + (128 + u / 64 % 64 - 128) * 64 +
                      (128 + u % 64 - 128) = u := by omega
                  rw [eu]
                  rw [if_pos ?hcond3]
                  case hcond3 =>
                    refine ⟨by simp only [List.length_cons]; omega, ?_, ?_, by omega, ?_⟩
                    · simp only [isContinuationByte, Bool.and_eq_true, decide_eq_true_eq]
                      omega
                    · simp only [isContinuationByte, Bool.and_eq_true, decide_eq_true_eq]
                      omega
                    · rw [hhsf, hlo]
                      rfl
                  rw [hdec2]
                  rfl

/-- C6: encryption and decryption are exact inverses on every well
formed content string: encryptMessage XORs the code units with the
fixed repeating key, UTF-8 encodes and base64 encodes, and
decryptMessage reverses those steps exactly. -/
theorem encryptMessage_decryptMessage_inverse :
    ∀ content, wellFormedUtf16 content = true →
      ∃ e, encryptMessage content = some e ∧ decryptMessage e = content := by
  intro c hc
  have hwx : wellFormedUtf16 (xorWithKey c) = true :=
    wf_xorWithKeyAux c.length c le_rfl 0 hc
  obtain ⟨bs, henc, hbound, hdec⟩ :=
    utf8_encode_decode (xorWithKey c).length (xorWithKey c) le_rfl hwx
  refine ⟨base64Encode bs, ?_, ?_⟩
  · unfold encryptMessage
    rw [henc]
    rfl
  · unfold decryptMessage
    rw [base64_roundtrip bs.length bs le_rfl hbound]
    simp only [Option.some_bind]
    rw [hdec]
    exact xorWithKeyAux_involutive c 0

/-- Witness for C6: decrypting the concrete ciphertext of the content
hi (code units 104, 105) returns the content. -/
theorem encryptMessage_decryptMessage_inverse_witness :
    decryptMessage [67, 119, 89, 61] = [104, 105] := by
  obtain ⟨e, he, hd⟩ := encryptMessage_decryptMessage_inverse [104, 105] (by decide)
  have hval : encryptMessage [104, 105] = some [67, 119, 89, 61] := by decide
  rw [he] at hval
  cases hval
  exact hd
